import Mathlib

/-!
Verification development for the mobydick topic-modelling repository.

The repository is a single orchestration script, `topic_modelling.py`,
that builds a forward index, runs LDA CVB0 inference via library calls,
persists the model, reloads it, and queries it.  We embed the script as
an explicit trace of the external calls it makes, in source order, and
embed the library components the specification describes (dataset,
inference engine, model store, query layer, term scorer) as executable
Lean definitions over exact rationals.
-/

namespace MobyDick

/-- External events performed by `determine_topics`, in source order.
`printMsg` is a diagnostic print; the other constructors are the calls
into the topic-modelling library. -/
inductive Ev where
  | printMsg (s : String)
  | makeForwardIndex (cfg : String)
  | createDataset
  | createLDA (numTopics : Nat) (alpha beta : ℚ)
  | runInference (numIters : Nat)
  | saveModel (path : String)
  | loadModel (path : String)
  | topK (tid : Nat) (withScorer : Bool)
  | createScorer
  | topicDistribution (docId : Nat)
  deriving DecidableEq, Repr

/-- The trace of `determine_topics(cfg)` (src/topic_modelling.py lines
17 to 105), transcribed call by call from the source. -/
def determineTopicsTrace (cfg : String) : List Ev :=
  [ Ev.printMsg "making forward index ...",
    Ev.makeForwardIndex cfg,
    Ev.printMsg "creating dset ...",
    Ev.createDataset,
    Ev.printMsg "creating lda_inf ...",
    Ev.createLDA 2 1 (1/100),
    Ev.printMsg "1000 iterations of lda_inf ...",
    Ev.runInference 10,
    Ev.printMsg "creating lda-cvb0 ...",
    Ev.saveModel "lda-cvb0",
    Ev.printMsg "forming model ...",
    Ev.loadModel "lda-cvb0",
    Ev.printMsg "topic id = 0 ...",
    Ev.topK 0 false,
    Ev.printMsg "map term id 0 to strings ...",
    Ev.topK 0 false,
    Ev.printMsg "map term id 1 to strings ...",
    Ev.topK 1 false,
    Ev.printMsg "create scorer ...",
    Ev.createScorer,
    Ev.printMsg "build fidx using BL Term Scorer, topic 0 ...",
    Ev.topK 0 true,
    Ev.printMsg "build fidx using BL Term Scorer, topic 1 ...",
    Ev.topK 1 true,
    Ev.topicDistribution 0,
    Ev.topicDistribution 900 ]

/-- Recognizer for the inference-run event. -/
def Ev.isRun : Ev → Bool
  | Ev.runInference _ => true
  | _ => false

/-- Recognizer for diagnostic prints. -/
def Ev.isPrint : Ev → Bool
  | Ev.printMsg _ => true
  | _ => false

/-- The pipeline stages named by the specification control flow. -/
inductive Stage where
  | buildDataset
  | engineSetup
  | engineRun
  | persist
  | reload
  | scorerUse
  deriving DecidableEq, Repr

/-- Classification of events into pipeline stages; prints and query
calls do not constitute stages of their own. -/
def stageOf : Ev → Option Stage
  | Ev.createDataset => some Stage.buildDataset
  | Ev.createLDA _ _ _ => some Stage.engineSetup
  | Ev.runInference _ => some Stage.engineRun
  | Ev.saveModel _ => some Stage.persist
  | Ev.loadModel _ => some Stage.reload
  | Ev.createScorer => some Stage.scorerUse
  | _ => none

/-- C1: in `determine_topics` the inference engine is run with exactly
`num_iters = 10`, and this is the only run call, even though the print
immediately before it announces 1000 iterations. -/
theorem run_invoked_with_ten_iters (cfg : String) :
    (determineTopicsTrace cfg).filter Ev.isRun = [Ev.runInference 10] ∧
    (determineTopicsTrace cfg)[6]? =
      some (Ev.printMsg "1000 iterations of lda_inf ...") ∧
    (determineTopicsTrace cfg)[7]? = some (Ev.runInference 10) :=
  ⟨rfl, rfl, rfl⟩

/-- C7: the stages of `determine_topics` occur in exactly the order
dataset build, engine setup, engine run, persist, reload, scorer use,
each exactly once, and the very first library call builds the forward
index from the configuration. -/
theorem pipeline_stage_order (cfg : String) :
    (determineTopicsTrace cfg).filterMap stageOf =
      [Stage.buildDataset, Stage.engineSetup, Stage.engineRun,
       Stage.persist, Stage.reload, Stage.scorerUse] ∧
    ((determineTopicsTrace cfg).filter (fun e => ¬ e.isPrint)).head? =
      some (Ev.makeForwardIndex cfg) :=
  ⟨rfl, rfl⟩

/-- Witness for C1 at the hardcoded config path. -/
theorem run_invoked_with_ten_iters_witness :
    (determineTopicsTrace "moby_dick-config.toml").filter Ev.isRun =
      [Ev.runInference 10] :=
  (run_invoked_with_ten_iters "moby_dick-config.toml").1

/-- Witness for C7 at the hardcoded config path. -/
theorem pipeline_stage_order_witness :
    (determineTopicsTrace "moby_dick-config.toml").filterMap stageOf =
      [Stage.buildDataset, Stage.engineSetup, Stage.engineRun,
       Stage.persist, Stage.reload, Stage.scorerUse] :=
  (pipeline_stage_order "moby_dick-config.toml").1

/-! ### The `__main__` block

The entry point (src/topic_modelling.py lines 108 to 126) prints a
greeting, checks `len(sys.argv) != 1`, and either prints a usage line
and exits with status 1, or initializes library logging, reads the
library version, calls `determine_topics` on the hardcoded config path,
and finally samples `time.time()` twice in a row to print an elapsed
time.  We model wall-clock time by an explicit clock: the clock starts
at `t0`, `determine_topics` takes `workDur`, and `gap` elapses between
the two adjacent `time.time()` calls on lines 125 and 126. -/

/-- Events performed by the `__main__` block. -/
inductive MainEv where
  | printMsg (s : String)
  | exitCode (n : Nat)
  | logToStderr
  | versionRead
  | callDetermineTopics (cfg : String)
  | printElapsed (q : ℚ)
  deriving DecidableEq, Repr

/-- Rounding to four decimal places, as `round(x, 4)` on line 126. -/
def round4 (q : ℚ) : ℚ := (round (q * 10000) : ℤ) / 10000

/-- The trace of the `__main__` block.  `prog` is `sys.argv[0]` and
`args` the remaining command-line arguments, so `sys.argv` is
`prog :: args`. -/
def mainRun (prog : String) (args : List String) (t0 workDur gap : ℚ) :
    List MainEv :=
  MainEv.printMsg "got to main!!" ::
  (if (prog :: args).length ≠ 1 then
    [MainEv.printMsg ("Usage: " ++ prog), MainEv.exitCode 1]
  else
    [MainEv.logToStderr, MainEv.versionRead,
     MainEv.printMsg "calling determine_topics() method ...",
     MainEv.callDetermineTopics "moby_dick-config.toml",
     MainEv.printElapsed (round4 ((t0 + workDur + gap) - (t0 + workDur)))])

/-- C9: the printed elapsed time does not depend on the start time or
on how long `determine_topics` took, because `start_time` is only
sampled after `determine_topics` returns; the elapsed value is the gap
between the two adjacent `time.time()` calls, and the call to
`determine_topics` precedes both samples in the trace. -/
theorem elapsed_ignores_work_duration (prog : String) (args : List String)
    (t0 t1 workDur1 workDur2 gap : ℚ) :
    mainRun prog args t0 workDur1 gap = mainRun prog args t1 workDur2 gap ∧
    (args = [] →
      (mainRun prog args t0 workDur1 gap)[4]? =
        some (MainEv.callDetermineTopics "moby_dick-config.toml") ∧
      (mainRun prog args t0 workDur1 gap)[5]? =
        some (MainEv.printElapsed (round4 gap))) := by
  have hgap : ∀ t w : ℚ, (t + w + gap) - (t + w) = gap := by
    intro t w; ring
  constructor
  · simp only [mainRun, hgap]
  · intro ha
    subst ha
    simp [mainRun, hgap]

/-- Witness for C9 at a concrete program name, argument list, clock
start and durations. -/
theorem elapsed_ignores_work_duration_witness :
    mainRun "topic_modelling.py" [] 0 5 0 =
      mainRun "topic_modelling.py" [] 7 9999 0 ∧
    (mainRun "topic_modelling.py" [] 0 5 0)[5]? =
      some (MainEv.printElapsed (round4 0)) :=
  ⟨(elapsed_ignores_work_duration "topic_modelling.py" [] 0 7 5 9999 0).1,
   ((elapsed_ignores_work_duration "topic_modelling.py" [] 0 7 5 9999 0).2
      rfl).2⟩

/-- C10: with any command-line argument the script prints the usage
line and exits with status 1, without initializing the library or
doing any work; with no arguments it initializes logging, reads the
version, and runs `determine_topics` on the hardcoded path
moby_dick-config.toml. -/
theorem argv_dispatch (prog : String) (args : List String)
    (t0 workDur gap : ℚ) :
    (args ≠ [] →
      mainRun prog args t0 workDur gap =
        [MainEv.printMsg "got to main!!",
         MainEv.printMsg ("Usage: " ++ prog), MainEv.exitCode 1]) ∧
    (args = [] →
      mainRun prog args t0 workDur gap =
        [MainEv.printMsg "got to main!!",
         MainEv.logToStderr, MainEv.versionRead,
         MainEv.printMsg "calling determine_topics() method ...",
         MainEv.callDetermineTopics "moby_dick-config.toml",
         MainEv.printElapsed (round4 gap)]) := by
  constructor
  · intro ha
    match args with
    | [] => exact absurd rfl ha
    | b :: bs => simp [mainRun]
  · intro ha
    subst ha
    have hgap : (t0 + workDur + gap) - (t0 + workDur) = gap := by ring
    simp [mainRun, hgap]

/-- Witness for C10: one invocation with an extra argument, one with
none. -/
theorem argv_dispatch_witness :
    mainRun "topic_modelling.py" ["extra"] 0 0 0 =
      [MainEv.printMsg "got to main!!",
       MainEv.printMsg ("Usage: " ++ "topic_modelling.py"),
       MainEv.exitCode 1] ∧
    mainRun "topic_modelling.py" [] 0 0 0 =
      [MainEv.printMsg "got to main!!",
       MainEv.logToStderr, MainEv.versionRead,
       MainEv.printMsg "calling determine_topics() method ...",
       MainEv.callDetermineTopics "moby_dick-config.toml",
       MainEv.printElapsed (round4 0)] :=
  ⟨(argv_dispatch "topic_modelling.py" ["extra"] 0 0 0).1 (by decide),
   (argv_dispatch "topic_modelling.py" [] 0 0 0).2 rfl⟩

/-! ### Exception propagation

`determine_topics` and `__main__` contain no try/except: every library
call that raises aborts the rest of the function and the exception
reaches the caller unchanged.  We model the library by an oracle that
may fail any call, and the script as the strict left-to-right
execution of its call list under that oracle. -/

/-- The external library calls of `determine_topics`, in source order:
the trace with diagnostic prints removed. -/
def scriptCalls (cfg : String) : List Ev :=
  (determineTopicsTrace cfg).filter (fun e => ¬ e.isPrint)

/-- Executes calls left to right against an oracle, stopping at the
first failure; there is no handler, so the first raised exception is
the result. -/
def runCalls {E : Type} (oracle : Ev → Except E Unit) : List Ev → Except E Unit
  | [] => Except.ok ()
  | c :: cs =>
    match oracle c with
    | Except.error e => Except.error e
    | Except.ok _ => runCalls oracle cs

/-- The whole script run against an oracle for the library. -/
def runScript {E : Type} (oracle : Ev → Except E Unit) (cfg : String) :
    Except E Unit :=
  runCalls oracle (scriptCalls cfg)

theorem runCalls_error_of_first {E : Type} (oracle : Ev → Except E Unit) :
    ∀ (cs : List Ev) (i : Nat) (c : Ev) (e : E),
      cs[i]? = some c →
      (∀ d ∈ cs.take i, oracle d = Except.ok ()) →
      oracle c = Except.error e →
      runCalls oracle cs = Except.error e := by
  intro cs
  induction cs with
  | nil => intro i c e hc; simp at hc
  | cons d ds ih =>
    intro i c e hc hok herr
    match i with
    | 0 =>
      simp at hc
      subst hc
      simp [runCalls, herr]
    | Nat.succ j =>
      have hd : oracle d = Except.ok () := by
        apply hok
        simp [List.take]
      simp only [runCalls, hd]
      refine ih j c e ?_ ?_ herr
      · simpa using hc
      · intro x hx
        exact hok x (by simp [List.take, hx])

theorem runCalls_error_mem {E : Type} (oracle : Ev → Except E Unit) :
    ∀ (cs : List Ev) (e : E), runCalls oracle cs = Except.error e →
      ∃ c ∈ cs, oracle c = Except.error e := by
  intro cs
  induction cs with
  | nil => intro e h; simp [runCalls] at h
  | cons d ds ih =>
    intro e h
    cases hd : oracle d with
    | error e2 =>
      simp only [runCalls, hd] at h
      cases h
      exact ⟨d, by simp, hd⟩
    | ok u =>
      simp only [runCalls, hd] at h
      obtain ⟨c, hc, hce⟩ := ih e h
      exact ⟨c, by simp [hc], hce⟩

/-- C8: the script performs no failure handling: if the oracle fails
on the first not-yet-succeeded call, the script result is exactly that
failure; and any failing script result is the failure of one of the
script calls, unmodified. -/
theorem script_propagates_exceptions {E : Type} (oracle : Ev → Except E Unit)
    (cfg : String) (i : Nat) (c : Ev) (e : E)
    (hc : (scriptCalls cfg)[i]? = some c)
    (hok : ∀ d ∈ (scriptCalls cfg).take i, oracle d = Except.ok ())
    (herr : oracle c = Except.error e) :
    runScript oracle cfg = Except.error e ∧
    (∀ e2 : E, runScript oracle cfg = Except.error e2 →
      ∃ d ∈ scriptCalls cfg, oracle d = Except.error e2) :=
  ⟨runCalls_error_of_first oracle (scriptCalls cfg) i c e hc hok herr,
   fun e2 h => runCalls_error_mem oracle (scriptCalls cfg) e2 h⟩

/-- An oracle that fails exactly the inference-run call. -/
def failOracle : Ev → Except String Unit :=
  fun e => if e.isRun then Except.error "boom" else Except.ok ()

/-- Witness for C8: with an oracle failing only the run call, the
script returns exactly that failure. -/
theorem script_propagates_exceptions_witness :
    runScript failOracle "moby_dick-config.toml" = Except.error "boom" :=
  (script_propagates_exceptions failOracle "moby_dick-config.toml" 3
    (Ev.runInference 10) "boom" rfl
    (by intro d hd; fin_cases hd <;> rfl) rfl).1

/-! ### The topic model and the model store

The inference library (metapy) is an external native dependency, not
part of this repository, so the components below are modelled from the
specification text and use exact rationals in place of floating-point
values; floating-point tolerance becomes exact equality. -/

/-- Modelled from the spec: the inferred topic model, missing from the
repository (only its caller is present).  phi is the K by V
topic-by-term matrix, theta the D by K document-by-topic matrix. -/
structure Model where
  numTopics : Nat
  numDocs : Nat
  vocabSize : Nat
  phi : List (List ℚ)
  theta : List (List ℚ)
  deriving DecidableEq, Repr

/-- Structural well-formedness: phi has K rows of length V, theta has
D rows of length K. -/
def Model.wf (m : Model) : Prop :=
  m.phi.length = m.numTopics ∧ (∀ r ∈ m.phi, r.length = m.vocabSize) ∧
  m.theta.length = m.numDocs ∧ (∀ r ∈ m.theta, r.length = m.numTopics)

instance (m : Model) : Decidable m.wf := by
  unfold Model.wf; infer_instance

/-- Modelled from the spec: the single on-disk model artifact, a
header holding K, D, V followed by the D by K theta values and then
the K by V phi values, row major. -/
structure Artifact where
  hdrK : Nat
  hdrD : Nat
  hdrV : Nat
  payload : List ℚ
  deriving DecidableEq, Repr

/-- Errors of the model store. -/
inductive StoreError where
  | corruptModel
  | fileNotFound
  deriving DecidableEq, Repr

/-- Modelled from the spec: `save` serializes dimensions and the two
matrices row major into one artifact. -/
def save (m : Model) : Artifact :=
  ⟨m.numTopics, m.numDocs, m.vocabSize, m.theta.flatten ++ m.phi.flatten⟩

/-- Splits a flat row-major payload into `rows` rows of `cols`
entries each. -/
def unflatten (rows cols : Nat) (xs : List ℚ) : List (List ℚ) :=
  match rows with
  | 0 => []
  | Nat.succ r => xs.take cols :: unflatten r cols (xs.drop cols)

/-- Modelled from the spec: `load` checks that the header dimensions
match the payload size, failing with `CorruptModelError` otherwise,
and rebuilds the model. -/
def load (a : Artifact) : Except StoreError Model :=
  if a.payload.length = a.hdrD * a.hdrK + a.hdrK * a.hdrV then
    Except.ok
      ⟨a.hdrK, a.hdrD, a.hdrV,
       unflatten a.hdrK a.hdrV (a.payload.drop (a.hdrD * a.hdrK)),
       unflatten a.hdrD a.hdrK (a.payload.take (a.hdrD * a.hdrK))⟩
  else Except.error StoreError.corruptModel

theorem take_append_exact {α : Type} (xs ys : List α) (n : Nat)
    (h : xs.length = n) : (xs ++ ys).take n = xs := by
  subst h
  induction xs with
  | nil => simp
  | cons a l ih => simp [List.take, ih]

theorem drop_append_exact {α : Type} (xs ys : List α) (n : Nat)
    (h : xs.length = n) : (xs ++ ys).drop n = ys := by
  subst h
  induction xs with
  | nil => simp
  | cons a l ih => simp [List.drop, ih]

theorem flatten_length_eq (c : Nat) :
    ∀ rs : List (List ℚ), (∀ r ∈ rs, r.length = c) →
      rs.flatten.length = rs.length * c := by
  intro rs
  induction rs with
  | nil => intro _; simp
  | cons r rest ih =>
    intro h
    have hr : r.length = c := h r (by simp)
    have hrest := ih (fun x hx => h x (by simp [hx]))
    simp [List.flatten, hr, hrest, Nat.succ_mul, Nat.add_comm]

theorem unflatten_flatten (c : Nat) :
    ∀ rs : List (List ℚ), (∀ r ∈ rs, r.length = c) →
      unflatten rs.length c rs.flatten = rs := by
  intro rs
  induction rs with
  | nil => intro _; rfl
  | cons r rest ih =>
    intro h
    have hr : r.length = c := h r (by simp)
    have htake : (r ++ rest.flatten).take c = r := take_append_exact r _ c hr
    have hdrop : (r ++ rest.flatten).drop c = rest.flatten :=
      drop_append_exact r _ c hr
    have hrest := ih (fun x hx => h x (by simp [hx]))
    simp [List.length_cons, unflatten, List.flatten, htake, hdrop, hrest]

/-- C3: saving a well-formed model through the model store and loading
it back succeeds and returns exactly the same model: phi and theta are
reproduced and K, D, V are preserved. -/
theorem load_save_roundtrip (m : Model) (hm : m.wf) :
    load (save m) = Except.ok m := by
  obtain ⟨hp, hpr, ht, htr⟩ := hm
  have hplen : m.phi.flatten.length = m.numTopics * m.vocabSize := by
    rw [flatten_length_eq m.vocabSize m.phi hpr, hp]
  have htlen : m.theta.flatten.length = m.numDocs * m.numTopics := by
    rw [flatten_length_eq m.numTopics m.theta htr, ht]
  have hlen : (m.theta.flatten ++ m.phi.flatten).length =
      m.numDocs * m.numTopics + m.numTopics * m.vocabSize := by
    simp [hplen, htlen]
  have htake : (m.theta.flatten ++ m.phi.flatten).take
      (m.numDocs * m.numTopics) = m.theta.flatten :=
    take_append_exact _ _ _ htlen
  have hdrop : (m.theta.flatten ++ m.phi.flatten).drop
      (m.numDocs * m.numTopics) = m.phi.flatten :=
    drop_append_exact _ _ _ htlen
  have hu1 : unflatten m.numTopics m.vocabSize m.phi.flatten = m.phi := by
    rw [← hp]; exact unflatten_flatten _ _ hpr
  have hu2 : unflatten m.numDocs m.numTopics m.theta.flatten = m.theta := by
    rw [← ht]; exact unflatten_flatten _ _ htr
  simp [load, save, hlen, htake, hdrop, hu1, hu2]

/-- A small concrete well-formed model used by witnesses. -/
def exModel : Model :=
  ⟨2, 1, 2, [[1/2, 1/2], [1, 0]], [[3/4, 1/4]]⟩

/-- Witness for C3 at a concrete two-topic model. -/
theorem load_save_roundtrip_witness :
    exModel.wf ∧ load (save exModel) = Except.ok exModel :=
  ⟨by decide, load_save_roundtrip exModel (by decide)⟩

/-! ### The query layer -/

/-- Errors of the query layer. -/
inductive QueryError where
  | outOfRange
  deriving DecidableEq, Repr

/-- Entry of phi at a topic and term, defaulting to 0 out of range. -/
def Model.phiEntry (m : Model) (tid term : Nat) : ℚ :=
  (m.phi.getD tid []).getD term 0

/-- Modelled from the spec: the default raw-probability scorer of the
query layer. -/
def defaultScorer (m : Model) (tid term : Nat) : ℚ := m.phiEntry tid term

/-- Ranking order on scored terms: descending by score, ties broken by
ascending term id. -/
def rankRel (p q : Nat × ℚ) : Prop :=
  q.2 < p.2 ∨ (p.2 = q.2 ∧ p.1 ≤ q.1)

instance : DecidableRel rankRel := fun p q => by
  unfold rankRel; infer_instance

instance : IsTotal (Nat × ℚ) rankRel where
  total := by
    intro p q
    rcases lt_trichotomy p.2 q.2 with h | h | h
    · exact Or.inr (Or.inl h)
    · rcases Nat.le_total p.1 q.1 with h2 | h2
      · exact Or.inl (Or.inr ⟨h, h2⟩)
      · exact Or.inr (Or.inr ⟨h.symm, h2⟩)
    · exact Or.inl (Or.inl h)

instance : IsTrans (Nat × ℚ) rankRel where
  trans := by
    intro a b c hab hbc
    rcases hab with h1 | ⟨e1, l1⟩
    · rcases hbc with h2 | ⟨e2, l2⟩
      · exact Or.inl (lt_trans h2 h1)
      · exact Or.inl (e2 ▸ h1)
    · rcases hbc with h2 | ⟨e2, l2⟩
      · exact Or.inl (by rw [e1]; exact h2)
      · exact Or.inr ⟨e1.trans e2, le_trans l1 l2⟩

/-- Modelled from the spec: the query layer top-k ranking.  Every term
id below V is scored, the pairs are sorted descending by score with
ties broken by ascending term id, and the first k are kept; an
out-of-range topic id fails with `OutOfRangeError`. -/
def topK (m : Model) (scorer : Model → Nat → Nat → ℚ) (tid k : Nat) :
    Except QueryError (List (Nat × ℚ)) :=
  if tid < m.numTopics then
    Except.ok
      ((List.insertionSort rankRel
        ((List.range m.vocabSize).map (fun t => (t, scorer m tid t)))).take k)
  else Except.error QueryError.outOfRange

/-- C4: for every valid topic id and every k, top-k succeeds with a
list of length min k V that is sorted descending by score with ties
broken by ascending term id, and k = 0 yields the empty list. -/
theorem topk_sorted_min_len (m : Model) (scorer : Model → Nat → Nat → ℚ)
    (tid k : Nat) (h : tid < m.numTopics) :
    ∃ l, topK m scorer tid k = Except.ok l ∧
      l.length = min k m.vocabSize ∧
      l.Sorted rankRel ∧
      (k = 0 → l = []) := by
  refine ⟨(List.insertionSort rankRel
      ((List.range m.vocabSize).map (fun t => (t, scorer m tid t)))).take k,
    ?_, ?_, ?_, ?_⟩
  · simp [topK, h]
  · rw [List.length_take, List.length_insertionSort, List.length_map,
      List.length_range]
  · exact List.Pairwise.sublist (List.take_sublist _ _)
      (List.sorted_insertionSort rankRel _)
  · intro hk
    rw [hk]
    exact List.take_zero _

/-- Witness for C4: top two terms of topic 0 of the concrete model. -/
theorem topk_sorted_min_len_witness :
    0 < exModel.numTopics ∧
    (∃ l, topK exModel defaultScorer 0 2 = Except.ok l ∧
      l.length = min 2 exModel.vocabSize ∧
      l.Sorted rankRel ∧
      (2 = 0 → l = [])) :=
  ⟨by decide, topk_sorted_min_len exModel defaultScorer 0 2 (by decide)⟩

/-- Modelled from the spec: the per-document topic distribution
query, failing with `OutOfRangeError` on document ids outside
`[0, D)`. -/
def topicDistribution (m : Model) (docId : Nat) : Except QueryError (List ℚ) :=
  if docId < m.numDocs then Except.ok (m.theta.getD docId [])
  else Except.error QueryError.outOfRange

/-- C5: the topic-distribution query succeeds with a list of K
probabilities exactly on document ids below D and fails with
`OutOfRangeError` on all others; in particular document id 900 fails
whenever the corpus has at most 900 documents. -/
theorem topic_distribution_range (m : Model) (hm : m.wf) (docId : Nat) :
    (docId < m.numDocs →
      ∃ l, topicDistribution m docId = Except.ok l ∧
        l.length = m.numTopics) ∧
    (¬ docId < m.numDocs →
      topicDistribution m docId = Except.error QueryError.outOfRange) ∧
    (m.numDocs ≤ 900 →
      topicDistribution m 900 = Except.error QueryError.outOfRange) := by
  obtain ⟨hp, hpr, ht, htr⟩ := hm
  refine ⟨?_, ?_, ?_⟩
  · intro h
    have hlen : docId < m.theta.length := by rw [ht]; exact h
    have hval : m.theta.getD docId [] = m.theta[docId] := by
      rw [List.getD_eq_getElem?_getD, List.getElem?_eq_getElem hlen]
      rfl
    refine ⟨m.theta.getD docId [], by simp [topicDistribution, h], ?_⟩
    rw [hval]
    exact htr _ (List.getElem_mem hlen)
  · intro h
    simp [topicDistribution, h]
  · intro h
    have : ¬ (900 : Nat) < m.numDocs := by omega
    simp [topicDistribution, this]

/-- Witness for C5: the concrete model has one document, so document 0
succeeds and document 900 is out of range. -/
theorem topic_distribution_range_witness :
    (∃ l, topicDistribution exModel 0 = Except.ok l ∧
      l.length = exModel.numTopics) ∧
    topicDistribution exModel 900 = Except.error QueryError.outOfRange :=
  ⟨(topic_distribution_range exModel (by decide) 0).1 (by decide),
   (topic_distribution_range exModel (by decide) 0).2.2 (by decide)⟩

/-! ### The Blei and Lafferty term scorer

A floating-point logarithm applied to a nonpositive argument produces
NaN or an infinity; we model any such non-finite value as `none`, so a
`some` result is exactly a finite score.  The logarithm on positive
arguments is abstracted by an arbitrary function `lg`. -/

/-- Nonnegativity of all phi entries, as holds for any probability or
pseudo-count matrix. -/
def Model.phiNonneg (m : Model) : Prop :=
  ∀ r ∈ m.phi, ∀ x ∈ r, 0 ≤ x

instance (m : Model) : Decidable m.phiNonneg := by
  unfold Model.phiNonneg; infer_instance

/-- A floating-point logarithm: nonpositive arguments produce a
non-finite value, modelled as `none`. -/
def floatLog (lg : ℚ → ℚ) (x : ℚ) : Option ℚ :=
  if x ≤ 0 then none else some (lg x)

/-- Modelled from the spec: the guarded per-topic logarithm
contribution, treating a phi entry of 0 as contributing 0 in place of
log 0. -/
def guardedLog (lg : ℚ → ℚ) (x : ℚ) : Option ℚ :=
  if x = 0 then some 0 else floatLog lg x

/-- Collects the values of an option-valued function over a list,
failing as soon as one application fails, as NaN propagates through
arithmetic. -/
def optionTraverse {α β : Type} (f : α → Option β) : List α → Option (List β)
  | [] => some []
  | a :: l =>
    match f a, optionTraverse f l with
    | some b, some bs => some (b :: bs)
    | _, _ => none

/-- Modelled from the spec: the Blei and Lafferty term score
phi times (log phi minus the mean over topics of log phi), where a phi
entry of 0 makes the whole score 0 and each per-topic log is guarded;
`none` marks a NaN or Inf escaping from an unguarded log. -/
def blScore (lg : ℚ → ℚ) (m : Model) (tid term : Nat) : Option ℚ :=
  if m.phiEntry tid term = 0 then some 0
  else
    match floatLog lg (m.phiEntry tid term),
      optionTraverse (fun j => guardedLog lg (m.phiEntry j term))
        (List.range m.numTopics) with
    | some lp, some logs =>
      some (m.phiEntry tid term * (lp - logs.sum / (m.numTopics : ℚ)))
    | _, _ => none

theorem getD_mem_or_default {α : Type} (l : List α) (n : Nat) (d : α) :
    l.getD n d ∈ l ∨ l.getD n d = d := by
  by_cases h : n < l.length
  · left
    rw [List.getD_eq_getElem?_getD, List.getElem?_eq_getElem h]
    exact List.getElem_mem h
  · right
    rw [List.getD_eq_getElem?_getD, List.getElem?_eq_none (by omega)]
    rfl

theorem phiEntry_nonneg (m : Model) (hm : m.phiNonneg) (tid term : Nat) :
    0 ≤ m.phiEntry tid term := by
  unfold Model.phiEntry
  rcases getD_mem_or_default m.phi tid [] with hrow | hrow
  · rcases getD_mem_or_default (m.phi.getD tid []) term 0 with hx | hx
    · exact hm _ hrow _ hx
    · rw [hx]
  · rw [hrow]
    simp

theorem optionTraverse_isSome {α β : Type} (f : α → Option β) :
    ∀ xs : List α, (∀ x ∈ xs, (f x).isSome) →
      (optionTraverse f xs).isSome := by
  intro xs
  induction xs with
  | nil => intro _; rfl
  | cons a l ih =>
    intro h
    have ha := h a (by simp)
    cases hfa : f a with
    | none => rw [hfa] at ha; simp at ha
    | some b =>
      have hl := ih (fun x hx => h x (by simp [hx]))
      cases hml : optionTraverse f l with
      | none => rw [hml] at hl; simp at hl
      | some bs => simp [optionTraverse, hfa, hml]

/-- C6: on a model with nonnegative phi entries the Blei and Lafferty
score is a finite value at every topic and term: the zero guard
replaces every logarithm of 0, so no NaN or Inf is ever produced. -/
theorem bl_score_finite (lg : ℚ → ℚ) (m : Model) (hm : m.phiNonneg)
    (tid term : Nat) : (blScore lg m tid term).isSome := by
  unfold blScore
  by_cases hp : m.phiEntry tid term = 0
  · simp [hp]
  · have hpos : 0 < m.phiEntry tid term :=
      lt_of_le_of_ne (phiEntry_nonneg m hm tid term) (Ne.symm hp)
    have hlp : floatLog lg (m.phiEntry tid term) =
        some (lg (m.phiEntry tid term)) := by
      unfold floatLog
      rw [if_neg (not_le.mpr hpos)]
    have hlogs : (optionTraverse (fun j => guardedLog lg (m.phiEntry j term))
        (List.range m.numTopics)).isSome := by
      apply optionTraverse_isSome
      intro j hj
      unfold guardedLog floatLog
      by_cases hz : m.phiEntry j term = 0
      · simp [hz]
      · have hjpos : 0 < m.phiEntry j term :=
          lt_of_le_of_ne (phiEntry_nonneg m hm j term) (Ne.symm hz)
        simp [hz, not_le.mpr hjpos]
    obtain ⟨logs, hlogs2⟩ := Option.isSome_iff_exists.mp hlogs
    simp [hp, hlp, hlogs2]

/-- Witness for C6 at the concrete model, at an entry whose phi value
is 0, so the zero guard is exercised. -/
theorem bl_score_finite_witness :
    exModel.phiNonneg ∧ (blScore (fun _ => 0) exModel 1 1).isSome :=
  ⟨by intro r hr x hx; fin_cases hr <;> fin_cases hx <;> norm_num,
   bl_score_finite (fun _ => 0) exModel
     (by intro r hr x hx; fin_cases hr <;> fin_cases hx <;> norm_num) 1 1⟩

/-! ### The inference engine

The CVB0 engine is modelled from the specification: seedable
initialization of the pseudo-counts, per-iteration responsibility
updates accumulated Jacobi style over all documents, and a final
normalization into phi and theta.  The only nondeterminism the
specification allows is the order in which documents are processed
within an iteration, which we expose as an explicit schedule; two runs
with the same dataset, configuration, seed and iteration count differ
at most in that schedule. -/

/-- Modelled from the spec: a document, a sparse list of term-id and
count pairs. -/
structure Document where
  counts : List (Nat × Nat)
  deriving DecidableEq, Repr

/-- Modelled from the spec: the dataset over which inference runs. -/
structure Dataset where
  docs : List Document
  vocabSize : Nat
  deriving DecidableEq, Repr

/-- Modelled from the spec: the engine configuration surface: topic
count, the two Dirichlet hyperparameters, and the seed. -/
structure EngineConfig where
  numTopics : Nat
  alpha : ℚ
  beta : ℚ
  seed : Nat
  deriving DecidableEq, Repr

/-- One step of a linear congruential generator, the seedable
pseudo-random source for the initial perturbation. -/
def lcgNext (s : Nat) : Nat := (1103515245 * s + 12345) % 2147483648

/-- Iterated generator steps from a seed. -/
def lcgIter (s : Nat) : Nat → Nat
  | 0 => s
  | Nat.succ n => lcgNext (lcgIter s n)

/-- Modelled from the spec: a seeded small perturbation around 1 used
to initialize the pseudo-counts deterministically from the seed. -/
def initPerturb (seed i j : Nat) : ℚ :=
  1 + (lcgIter seed (i * 7919 + j) % 100 : Nat) / 1000

/-- Initial topic-term pseudo-counts derived from the seed. -/
def initTT (cfg : EngineConfig) : Nat → Nat → ℚ :=
  fun k t => initPerturb cfg.seed k t

/-- Initial document-topic pseudo-counts derived from the seed. -/
def initDT (cfg : EngineConfig) : Nat → Nat → ℚ :=
  fun d k => initPerturb (cfg.seed + 1) d k

/-- Modelled from the spec: the unnormalized CVB0 responsibility of
topic k for term t in document d, proportional to the smoothed
topic-term count times the smoothed document-topic count. -/
def resp (cfg : EngineConfig) (tt dt : Nat → Nat → ℚ) (d t k : Nat) : ℚ :=
  (tt k t + cfg.beta) * (dt d k + cfg.alpha)

/-- The responsibility normalized over the K topics. -/
def respN (cfg : EngineConfig) (tt dt : Nat → Nat → ℚ) (d t k : Nat) : ℚ :=
  resp cfg tt dt d t k /
    ((List.range cfg.numTopics).map (resp cfg tt dt d t)).sum

/-- The contribution of one document to the next topic-term
pseudo-counts: responsibility times count, summed over the occurrences
of the term in the document. -/
def docContribTT (cfg : EngineConfig) (tt dt : Nat → Nat → ℚ)
    (ds : Dataset) (d : Nat) : Nat → Nat → ℚ :=
  fun k t =>
    (((ds.docs.getD d (Document.mk [])).counts.filter
        (fun p => p.1 = t)).map
      (fun p => (p.2 : ℚ) * respN cfg tt dt d t k)).sum

/-- The next document-topic pseudo-counts; each document only touches
its own row, so no processing order is involved. -/
def nextDT (cfg : EngineConfig) (tt dt : Nat → Nat → ℚ) (ds : Dataset) :
    Nat → Nat → ℚ :=
  fun d k =>
    ((ds.docs.getD d (Document.mk [])).counts.map
      (fun p => (p.2 : ℚ) * respN cfg tt dt d p.1 k)).sum

/-- The next topic-term pseudo-counts, accumulated over the documents
in the order given by the schedule. -/
def nextTT (cfg : EngineConfig) (tt dt : Nat → Nat → ℚ) (ds : Dataset)
    (sched : List Nat) : Nat → Nat → ℚ :=
  fun k t => (sched.map (fun d => docContribTT cfg tt dt ds d k t)).sum

/-- One inference iteration over the whole dataset. -/
def engineStep (cfg : EngineConfig) (ds : Dataset)
    (st : (Nat → Nat → ℚ) × (Nat → Nat → ℚ)) (sched : List Nat) :
    (Nat → Nat → ℚ) × (Nat → Nat → ℚ) :=
  (nextTT cfg st.1 st.2 ds sched, nextDT cfg st.1 st.2 ds)

/-- The engine state after n iterations under a per-iteration
schedule. -/
def engineIter (cfg : EngineConfig) (ds : Dataset)
    (sched : Nat → List Nat) : Nat → (Nat → Nat → ℚ) × (Nat → Nat → ℚ)
  | 0 => (initTT cfg, initDT cfg)
  | Nat.succ n => engineStep cfg ds (engineIter cfg ds sched n) (sched n)

/-- Normalizes a pseudo-count row into a distribution over the first
`len` indices. -/
def normalizeRow (len : Nat) (row : Nat → ℚ) : Nat → ℚ :=
  fun j => row j / ((List.range len).map row).sum

/-- Modelled from the spec: the full engine run: initialize from the
seed, iterate, then normalize the pseudo-counts into phi and theta. -/
def engineRun (cfg : EngineConfig) (ds : Dataset) (sched : Nat → List Nat)
    (iters : Nat) : (Nat → Nat → ℚ) × (Nat → Nat → ℚ) :=
  (fun k => normalizeRow ds.vocabSize ((engineIter cfg ds sched iters).1 k),
   fun d => normalizeRow cfg.numTopics ((engineIter cfg ds sched iters).2 d))

theorem nextTT_perm (cfg : EngineConfig) (tt dt : Nat → Nat → ℚ)
    (ds : Dataset) (s1 s2 : List Nat) (h : s1.Perm s2) :
    nextTT cfg tt dt ds s1 = nextTT cfg tt dt ds s2 := by
  funext k t
  exact List.Perm.sum_eq (h.map _)

theorem engineIter_schedule_irrelevant (cfg : EngineConfig) (ds : Dataset)
    (s1 s2 : Nat → List Nat) (h : ∀ i, (s1 i).Perm (s2 i)) :
    ∀ n, engineIter cfg ds s1 n = engineIter cfg ds s2 n := by
  intro n
  induction n with
  | zero => rfl
  | succ n ih =>
    simp only [engineIter]
    rw [ih]
    unfold engineStep
    rw [nextTT_perm cfg _ _ ds _ _ (h n)]

/-- C2: the engine is deterministic: with the same dataset,
hyperparameters, seed and iteration count, two runs produce identical
phi and theta, even when the two runs process the documents of each
iteration in different orders. -/
theorem engine_deterministic (cfg : EngineConfig) (ds : Dataset)
    (s1 s2 : Nat → List Nat) (iters : Nat)
    (h : ∀ i, (s1 i).Perm (s2 i)) :
    engineRun cfg ds s1 iters = engineRun cfg ds s2 iters := by
  unfold engineRun
  rw [engineIter_schedule_irrelevant cfg ds s1 s2 h iters]

/-- The toy dataset of the specification: two documents over four
terms. -/
def exDataset : Dataset :=
  ⟨[Document.mk [(0, 5), (1, 5)], Document.mk [(2, 5), (3, 5)]], 4⟩

/-- The configuration used by the script: two topics, alpha 1,
beta 1/100. -/
def exConfig : EngineConfig := ⟨2, 1, 1/100, 0⟩

/-- Witness for C2: two runs over the toy dataset with the documents
processed in opposite orders yield the same model. -/
theorem engine_deterministic_witness :
    engineRun exConfig exDataset (fun _ => [0, 1]) 3 =
      engineRun exConfig exDataset (fun _ => [1, 0]) 3 :=
  engine_deterministic exConfig exDataset (fun _ => [0, 1]) (fun _ => [1, 0])
    3 (fun _ => by show List.Perm [0, 1] [1, 0]; decide)

end MobyDick
